import Mathlib

/-!
Shallow embedding of `tools/query_converter.py` (class `QueryConverter`):
a translator between three SIEM query languages (SPL, LEQL, WQL).

Python strings are modelled as `List Char`; Python `None`-able values as
`Option`; Python exceptions as `Except PyErr`.  Every definition mirrors the
corresponding source function; scanning loops that skip ahead use a fuel
argument equal to the input length (each step consumes at least one
character, so the fuel never runs out before the input does).
-/

set_option maxRecDepth 4000

/-- Python whitespace (ASCII part), as used by `str.strip()` / `str.split()`
and the regex class `\s`. -/
def isPyWs (c : Char) : Bool :=
  c = ' ' || c = '\t' || c = '\n' || c = '\r' || c = '\x0b' || c = '\x0c'

/-- Remove leading and trailing characters satisfying `p`
(Python `str.strip` / `str.strip(chars)`). -/
def stripP (p : Char → Bool) (s : List Char) : List Char :=
  ((s.dropWhile p).reverse.dropWhile p).reverse

/-- Python `str.strip()` (no arguments: whitespace). -/
def pyStrip (s : List Char) : List Char := stripP isPyWs s

/-- Python `str.split(sep)` for a single-character separator `sep` given as a
predicate: `"".split(";") = [""]`, `";".split(";") = ["", ""]`. -/
def splitOnP (p : Char → Bool) : List Char → List (List Char)
  | [] => [[]]
  | c :: rest =>
    let r := splitOnP p rest
    if p c then [] :: r
    else
      match r with
      | [] => [[c]]
      | h :: t => (c :: h) :: t

/-- Index (counting from `i`) of the first occurrence of `sub` in `s`
(Python `str.find`, returning `none` for `-1`). -/
def findSubAux (sub : List Char) : List Char → Nat → Option Nat
  | s, i =>
    if sub.isPrefixOf s then some i
    else
      match s with
      | [] => none
      | _ :: t => findSubAux sub t (i + 1)

/-- Python `s.find(sub)` as an `Option Nat`. -/
def findSub (sub s : List Char) : Option Nat := findSubAux sub s 0

/-- Python `sub in s` (substring containment). -/
def containsSub (sub s : List Char) : Bool := (findSub sub s).isSome

/-- Python `s.find(sub, start)` as an `Option Nat`. -/
def findSubFrom (sub s : List Char) (start : Nat) : Option Nat :=
  (findSub sub (s.drop start)).map (· + start)

/-- Python `s.split(sep, 1)` (at most one split, at the first occurrence). -/
def pySplit1 (sep s : List Char) : List (List Char) :=
  match findSub sep s with
  | none => [s]
  | some i => [s.take i, s.drop (i + sep.length)]

/-- Fueled worker for `pySplitSeq`; each step consumes at least `sep.length ≥ 1`
characters, so fuel `s.length` suffices. -/
def pySplitSeqF (sep : List Char) : Nat → List Char → List (List Char)
  | 0, s => [s]
  | fuel + 1, s =>
    match findSub sep s with
    | none => [s]
    | some i => s.take i :: pySplitSeqF sep fuel (s.drop (i + sep.length))

/-- Python `s.split(sep)` for a non-empty multi-character separator. -/
def pySplitSeq (sep s : List Char) : List (List Char) := pySplitSeqF sep s.length s

/-- Python `s.split()` (no argument): split on whitespace runs, dropping
empty pieces. -/
def pySplitWs (s : List Char) : List (List Char) :=
  (splitOnP isPyWs s).filter (fun l => !l.isEmpty)

/-- Fueled worker for `pyReplace`; only called with `old ≠ []`, so each step
consumes at least one character. -/
def pyReplaceF (old new : List Char) : Nat → List Char → List Char
  | 0, s => s
  | fuel + 1, s =>
    if old.isPrefixOf s then new ++ pyReplaceF old new fuel (s.drop old.length)
    else
      match s with
      | [] => []
      | c :: t => c :: pyReplaceF old new fuel t

/-- Python `s.replace(old, new)` (all non-overlapping occurrences, left to
right; the degenerate `old = ""` case interleaves `new` everywhere). -/
def pyReplace (old new s : List Char) : List Char :=
  if old.isEmpty then new ++ s.flatMap (fun c => c :: new)
  else pyReplaceF old new s.length s

/-- Python `str.upper()` (ASCII). -/
def upperStr (s : List Char) : List Char := s.map Char.toUpper

/-- Python `str.lower()` (ASCII). -/
def lowerStr (s : List Char) : List Char := s.map Char.toLower

/-- Python truthiness of an `Optional[str]`: `None` and `""` are falsy. -/
def pyTruthyS : Option (List Char) → Bool
  | none => false
  | some [] => false
  | some (_ :: _) => true

/-- Python `sep.join(xs)`. -/
def pyJoin (sep : List Char) (xs : List (List Char)) : List Char :=
  List.intercalate sep xs

/-- Python `f"{x}"` applied to an `Optional[str]`: `None` prints as `"None"`. -/
def pyOptStr : Option (List Char) → List Char
  | none => "None".toList
  | some s => s

/-- A Python exception escaping one of the translator's functions. -/
inductive PyErr
  | valueError (msg : List Char)
  | recursionError
deriving DecidableEq

deriving instance DecidableEq for Except

/-- Python `str(e)` for the exceptions we model. -/
def pyErrStr : PyErr → List Char
  | .valueError m => m
  | .recursionError => "maximum recursion depth exceeded".toList

/-- Enum `QueryLanguage` (`SPL = "spl"`, `LEQL = "leql"`, `WQL = "wql"`). -/
inductive QueryLanguage
  | spl
  | leql
  | wql
deriving DecidableEq

/-- The `.value` attribute of a `QueryLanguage` member. -/
def QueryLanguage.value : QueryLanguage → List Char
  | .spl => "spl".toList
  | .leql => "leql".toList
  | .wql => "wql".toList

/-- Iteration order of `for target_lang in QueryLanguage` (definition order). -/
def qlList : List QueryLanguage := [.spl, .leql, .wql]

/-- Dataclass `TimeRange`. -/
structure TimeRange where
  earliest : Option (List Char)
  latest : Option (List Char)
deriving DecidableEq

/-- Dataclass `SearchTerm`. -/
structure SearchTerm where
  value : List Char
  field : Option (List Char)
  operator : List Char
  is_wildcard : Bool
  is_grouped : Bool
deriving DecidableEq

/-- One element of the heterogeneous `search_terms` list of an `SPLQuery`:
either a `SearchTerm` or a plain Python string. -/
inductive SplTerm
  | term (t : SearchTerm)
  | free (s : List Char)
deriving DecidableEq

/-- A command dict `{'name': …, 'args': […]}` built by `_parse_spl`. -/
structure Cmd where
  name : List Char
  args : List (List Char)
deriving DecidableEq

/-- A lookup dict `{'type': 'lookup', 'args': […]}` (the `type` key is the
constant string `'lookup'` and is left implicit). -/
structure LookupD where
  args : List (List Char)
deriving DecidableEq

/-- Dataclass `SPLQuery` as returned by `_parse_spl`. -/
structure SPLQuery where
  search_terms : List SplTerm
  time_range : Option TimeRange
  commands : Option (List Cmd)
  subsearches : Option (List (List Char))
  lookups : Option (List LookupD)
deriving DecidableEq

/-- The dict returned by `_parse_leql`. -/
structure LeqlParsed where
  search_terms : List SearchTerm
  time_range : Option TimeRange
  commands : Option (List Cmd)
deriving DecidableEq

/-- The dict returned by `_parse_wql`. -/
structure WqlParsed where
  search_terms : List SearchTerm
  time_range : Option TimeRange
deriving DecidableEq

/-- Generic fueled regex-style scanner (`re.finditer`): try a match at the
current position; on success emit it and continue after the match, otherwise
advance one character.  All `tryAt` functions used here produce matches of
length at least one, so fuel `s.length` suffices (at fuel 0 the remaining
input is empty and the result `[]` agrees with the `[]` case). -/
def reScanF (tryAt : List Char → Option (α × Nat)) : Nat → List Char → List α
  | 0, _ => []
  | fuel + 1, s =>
    match tryAt s with
    | some (m, len) => m :: reScanF tryAt fuel (s.drop len)
    | none =>
      match s with
      | [] => []
      | _ :: t => reScanF tryAt fuel t

/-- Non-overlapping left-to-right matches of a pattern, as `re.finditer`. -/
def reScan (tryAt : List Char → Option (α × Nat)) (s : List Char) : List α :=
  reScanF tryAt s.length s

/-- Match of the regex `(earliest|latest)=([^\s]+)` at the start of `s`:
returns `((full match, modifier is "earliest", value group), match length)`.
The two alternatives start with different letters, so no backtracking between
them is possible; `[^\s]+` is greedy and must be non-empty. -/
def timeTryAt (s : List Char) : Option ((List Char × Bool × List Char) × Nat) :=
  if ("earliest=".toList).isPrefixOf s then
    let v := (s.drop 9).takeWhile (fun c => !isPyWs c)
    if v.isEmpty then none
    else some (("earliest=".toList ++ v, true, v), 9 + v.length)
  else if ("latest=".toList).isPrefixOf s then
    let v := (s.drop 7).takeWhile (fun c => !isPyWs c)
    if v.isEmpty then none
    else some (("latest=".toList ++ v, false, v), 7 + v.length)
  else none

/-- Match of the regex `\[(.*?)\]` at the start of `s`: a literal `[`, then a
lazy run of non-newline characters up to the first `]`.  Returns
`((full match, inner group), match length)`. -/
def subTryAt : List Char → Option ((List Char × List Char) × Nat)
  | '[' :: rest =>
    let inner := rest.takeWhile (fun c => c ≠ ']' && c ≠ '\n')
    if (rest.drop inner.length).head? = some ']' then
      some (('[' :: (inner ++ [']']), inner), inner.length + 2)
    else none
  | _ => none

/-- The character class `[a-zA-Z0-9_\.]` of the SPL field regex. -/
def isFieldChar (c : Char) : Bool := c.isAlphanum || c = '_' || c = '.'

/-- The alternation `(=|!=|>|<|>=|<=)` of the SPL field regex, tried in the
pattern's order at the start of `s`.  `>=` and `<=` are listed after `>` and
`<`, so they can never be chosen: whenever `>=` could match, `>` already
matches, and the remainder `\s*([^\s]+)` succeeds after `>` whenever it
succeeds after `>=` (the following `=` is a non-space character). -/
def opAt : List Char → Option (List Char)
  | '=' :: _ => some ['=']
  | '!' :: '=' :: _ => some ['!', '=']
  | '>' :: _ => some ['>']
  | '<' :: _ => some ['<']
  | _ => none

/-- Match of the regex `([a-zA-Z0-9_\.]+)\s*(=|!=|>|<|>=|<=)\s*([^\s]+)` at
the start of `s`: returns `((full, field, op, value), length)`.  The greedy
pieces need no backtracking: field characters are neither whitespace nor
operator characters, and whitespace cannot begin an operator or a value. -/
def fieldTryAt (s : List Char) :
    Option ((List Char × List Char × List Char × List Char) × Nat) :=
  let f := s.takeWhile isFieldChar
  if f.isEmpty then none
  else
    let s1 := s.drop f.length
    let sp1 := s1.takeWhile isPyWs
    let s2 := s1.drop sp1.length
    match opAt s2 with
    | none => none
    | some op =>
      let s3 := s2.drop op.length
      let sp2 := s3.takeWhile isPyWs
      let s4 := s3.drop sp2.length
      let v := s4.takeWhile (fun c => !isPyWs c)
      if v.isEmpty then none
      else
        some ((f ++ sp1 ++ op ++ sp2 ++ v, f, op, v),
          f.length + sp1.length + op.length + sp2.length + v.length)

/-- Match of the regex `([a-zA-Z0-9_\.]*\*[a-zA-Z0-9_\.]*)` at the start of
`s`: an optional run of field characters, a literal `*`, another optional
run.  The whole match is also the captured group. -/
def wildTryAt (s : List Char) : Option (List Char × Nat) :=
  let a := s.takeWhile isFieldChar
  match (s.drop a.length).head? with
  | some '*' =>
    let b := (s.drop (a.length + 1)).takeWhile isFieldChar
    some (a ++ '*' :: b, a.length + 1 + b.length)
  | _ => none

/-- Strip matching double or single quotes from a matched SPL value
(`value.startswith('"') and value.endswith('"')`, then `value[1:-1]`). -/
def stripMatchedQuotes (v : List Char) : List Char :=
  if ['"'].isPrefixOf v && ['"'].isSuffixOf v then (v.dropLast).drop 1
  else if ['\''].isPrefixOf v && ['\''].isSuffixOf v then (v.dropLast).drop 1
  else v

/-- Loop body of the time-modifier pass of `_parse_spl`: record the bound and
delete every occurrence of the matched text from the search part. -/
def splTimeStep (st : TimeRange × List Char) (m : List Char × Bool × List Char) :
    TimeRange × List Char :=
  let (tr, sp) := st
  let (full, isEarliest, v) := m
  (if isEarliest then { tr with earliest := some v } else { tr with latest := some v },
   pyStrip (pyReplace full [] sp))

/-- Loop body of the subsearch pass of `_parse_spl`. -/
def splSubStep (st : List (List Char) × List Char) (m : List Char × List Char) :
    List (List Char) × List Char :=
  let (subs, sp) := st
  let (full, inner) := m
  (subs ++ [inner], pyStrip (pyReplace full [] sp))

/-- Loop body of the field-term pass inside one AND-segment of `_parse_spl`. -/
def splFieldStep (st : List SplTerm × List Char)
    (m : List Char × List Char × List Char × List Char) : List SplTerm × List Char :=
  let (acc, cur) := st
  let (full, f, op, v) := m
  (acc ++ [SplTerm.term ⟨stripMatchedQuotes v, some f, op, false, false⟩],
   pyStrip (pyReplace full [] cur))

/-- Loop body of the wildcard pass inside one AND-segment of `_parse_spl`. -/
def splWildStep (st : List SplTerm × List Char) (m : List Char) :
    List SplTerm × List Char :=
  let (acc, cur) := st
  (acc ++ [SplTerm.term ⟨"*".toList, some m, "=".toList, true, false⟩],
   pyStrip (pyReplace m [] cur))

/-- Processing of one AND-segment of the SPL search part: field terms, then
wildcard terms, then remaining whitespace-separated tokens as free text. -/
def splAndPart (acc : List SplTerm) (ap : List Char) : List SplTerm :=
  let (acc1, ap1) := (reScan fieldTryAt ap).foldl splFieldStep (acc, ap)
  let (acc2, ap2) := (reScan wildTryAt ap1).foldl splWildStep (acc1, ap1)
  acc2 ++ (pySplitWs ap2).map SplTerm.free

/-- Search-term extraction of `_parse_spl`: split on `" OR "`, then each piece
on `" AND "`, accumulating terms in source order. -/
def splSearchTerms (sp : List Char) : List SplTerm :=
  (pySplitSeq " OR ".toList sp).foldl
    (fun acc orp => (pySplitSeq " AND ".toList orp).foldl splAndPart acc) []

/-- Per-pipeline-segment command construction of `_parse_spl`.  Returns
`none` for an all-whitespace segment, otherwise the command dict (always
appended) together with the lookup dict appended in the `LOOKUP` branch. -/
def splCmdStep (part : List Char) : Option (Cmd × Option LookupD) :=
  match pySplitWs (pyStrip part) with
  | [] => none
  | name :: rest =>
    if upperStr name = "BY".toList then
      some (⟨name, "by".toList ::
        rest.filter (fun t => t ≠ "|".toList && t ≠ "BY".toList)⟩, none)
    else if upperStr name = "AS".toList then
      some (⟨name, "as".toList :: rest.take 1⟩, none)
    else if upperStr name = "LOOKUP".toList then
      some (⟨name, []⟩,
        some ⟨rest.takeWhile (fun t => t ≠ "|".toList && t ≠ "AS".toList)⟩)
    else
      some (⟨name, name :: rest⟩, none)

/-- `_parse_spl`: SPL query → `SPLQuery` IR.  Total: no operation in the
source can raise on any string input.  The loop-carried locals
(`search_part`, `time_range`, the command list) are threaded through the
fold helpers above; repeated locals (`parts`, the command results) are
inlined, which preserves the value since everything is pure. -/
def parseSpl (query : List Char) : SPLQuery :=
  match (reScan timeTryAt (pyStrip ((splitOnP (fun c => c = '|') query).headD []))).foldl
      splTimeStep (⟨none, none⟩, pyStrip ((splitOnP (fun c => c = '|') query).headD [])) with
  | (tr, sp1) =>
    match (reScan subTryAt sp1).foldl splSubStep ([], sp1) with
    | (subs, sp2) =>
      { search_terms := splSearchTerms sp2
        time_range := if pyTruthyS tr.earliest || pyTruthyS tr.latest then some tr else none
        commands :=
          if ((((splitOnP (fun c => c = '|') query).tail.filterMap splCmdStep).map Prod.fst).isEmpty)
          then none
          else some (((splitOnP (fun c => c = '|') query).tail.filterMap splCmdStep).map Prod.fst)
        subsearches := if subs.isEmpty then none else some subs
        lookups :=
          if ((((splitOnP (fun c => c = '|') query).tail.filterMap splCmdStep).filterMap Prod.snd).isEmpty)
          then none
          else some (((splitOnP (fun c => c = '|') query).tail.filterMap splCmdStep).filterMap Prod.snd) }

/-- Python slice `s[a:b]` (clamped, like Python slicing). -/
def pySlice (s : List Char) (a b : Nat) : List Char := (s.take b).drop a

/-- `_parse_leql`: LEQL query → IR dict.  The only fallible operation in the
source is the two-variable unpacking of `where_clause.split('ICONTAINS', 1)`,
guarded by the preceding `'ICONTAINS' in where_clause` check; the unguarded
shape is kept as an explicit `ValueError`.  `where_start`/`where_end` and
`groupby_start`/`groupby_end` are inlined; `time_range` is the freshly
initialized (all-`None`) `TimeRange`, so the final truthiness test renders it
absent. -/
def parseLeql (query : List Char) : Except PyErr LeqlParsed :=
  match (if containsSub "where(".toList query then
      match findSubFrom ")".toList query ((findSub "where(".toList query).getD 0) with
      | none => (.ok [] : Except PyErr (List SearchTerm))
      | some whereEnd =>
        if containsSub "ICONTAINS".toList
            (pySlice query ((findSub "where(".toList query).getD 0 + 6) whereEnd) then
          match pySplit1 "ICONTAINS".toList
              (pySlice query ((findSub "where(".toList query).getD 0 + 6) whereEnd) with
          | [f, v] =>
            .ok [⟨stripP (fun c => c = '"' || c = '\'') (pyStrip v),
                  some (pyStrip f), "icontains".toList, false, false⟩]
          | _ => .error (.valueError "not enough values to unpack".toList)
        else .ok []
    else .ok []) with
  | .error e => .error e
  | .ok searchTerms =>
    .ok { search_terms := searchTerms
          time_range :=
            if pyTruthyS (none : Option (List Char)) || pyTruthyS (none : Option (List Char))
            then some ⟨none, none⟩ else none
          commands :=
            if (if containsSub "groupby(".toList query then
                match findSubFrom ")".toList query ((findSub "groupby(".toList query).getD 0) with
                | none => ([] : List Cmd)
                | some ge =>
                  [⟨"groupby".toList,
                    [pyStrip (pySlice query ((findSub "groupby(".toList query).getD 0 + 8) ge)]⟩]
              else []).isEmpty
            then none
            else some (if containsSub "groupby(".toList query then
                match findSubFrom ")".toList query ((findSub "groupby(".toList query).getD 0) with
                | none => ([] : List Cmd)
                | some ge =>
                  [⟨"groupby".toList,
                    [pyStrip (pySlice query ((findSub "groupby(".toList query).getD 0 + 8) ge)]⟩]
              else []) }

/-- Inner loop of the `time:` branch of `_parse_wql`: a fold over
`part[5:].strip().split(';')`.  In each branch the source indexes element 1
of a full `split`, guarded by the corresponding `in` check (which guarantees
at least two pieces), embedded as `getD 1 []`. -/
def wqlTimePart (tr : TimeRange) (tp : List Char) : TimeRange :=
  if containsSub ">=".toList tp then
    { tr with earliest := some (pyStrip ((pySplitSeq ">=".toList tp).getD 1 [])) }
  else if containsSub "<=".toList tp then
    { tr with latest := some (pyStrip ((pySplitSeq "<=".toList tp).getD 1 [])) }
  else if containsSub ">".toList tp then
    { tr with earliest := some (pyStrip ((pySplitSeq ">".toList tp).getD 1 [])) }
  else if containsSub "<".toList tp then
    { tr with latest := some (pyStrip ((pySplitSeq "<".toList tp).getD 1 [])) }
  else tr

/-- One clause of `_parse_wql` (the body of its `for part in parts` loop),
parameterised by the recursive call used for parenthesized groups.  The
`field<op>value` branches combine the Python `'<op>' in part` test and
`part.split('<op>', 1)` destructuring into a single match on `findSub`
(the test is exactly `findSub ≠ none`, and the one-shot split cuts at the
found index).  The branch order is the source's: `time:`, `=`, `!=`,
`>` (without `>=`), `<` (without `<=`), `>=`, `<=`, `~`, group. -/
def wqlPart (recur : List Char → Except PyErr WqlParsed)
    (st : List SearchTerm × TimeRange) (part0 : List Char) :
    Except PyErr (List SearchTerm × TimeRange) :=
  let (terms, tr) := st
  let part := pyStrip part0
  if ("time:".toList).isPrefixOf part then
    let tps := splitOnP (fun c => c = ';') (pyStrip (part.drop 5))
    .ok (terms, tps.foldl wqlTimePart tr)
  else
    match findSub "=".toList part with
    | some i =>
      .ok (terms ++ [⟨pyStrip (part.drop (i + 1)), some (pyStrip (part.take i)),
        "=".toList, false, false⟩], tr)
    | none =>
    match findSub "!=".toList part with
    | some i =>
      .ok (terms ++ [⟨pyStrip (part.drop (i + 2)), some (pyStrip (part.take i)),
        "!=".toList, false, false⟩], tr)
    | none =>
    if containsSub ">".toList part && !containsSub ">=".toList part then
      match findSub ">".toList part with
      | some i =>
        .ok (terms ++ [⟨pyStrip (part.drop (i + 1)), some (pyStrip (part.take i)),
          ">".toList, false, false⟩], tr)
      | none => .ok (terms, tr)
    else if containsSub "<".toList part && !containsSub "<=".toList part then
      match findSub "<".toList part with
      | some i =>
        .ok (terms ++ [⟨pyStrip (part.drop (i + 1)), some (pyStrip (part.take i)),
          "<".toList, false, false⟩], tr)
      | none => .ok (terms, tr)
    else
    match findSub ">=".toList part with
    | some i =>
      .ok (terms ++ [⟨pyStrip (part.drop (i + 2)), some (pyStrip (part.take i)),
        ">=".toList, false, false⟩], tr)
    | none =>
    match findSub "<=".toList part with
    | some i =>
      .ok (terms ++ [⟨pyStrip (part.drop (i + 2)), some (pyStrip (part.take i)),
        "<=".toList, false, false⟩], tr)
    | none =>
    match findSub "~".toList part with
    | some i =>
      .ok (terms ++ [⟨pyStrip (part.drop (i + 1)), some (pyStrip (part.take i)),
        "~".toList, false, false⟩], tr)
    | none =>
    if ("(".toList).isPrefixOf part && (")".toList).isSuffixOf part then
      match recur (pyStrip ((part.drop 1).dropLast)) with
      | .error e => .error e
      | .ok innerRes =>
        .ok (terms ++ innerRes.search_terms.map (fun t => { t with is_grouped := true }), tr)
    else .ok (terms, tr)

/-- Fueled `_parse_wql`: the fuel bounds the recursion depth through
parenthesized groups (running out models Python's `RecursionError`; fuel
`query.length + 1` is proved sufficient below). -/
def parseWqlF : Nat → List Char → Except PyErr WqlParsed
  | 0, _ => .error .recursionError
  | n + 1, query =>
    let parts := splitOnP (fun c => c = ';') query
    match parts.foldl
      (fun (acc : Except PyErr (List SearchTerm × TimeRange)) p =>
        acc.bind (fun st => wqlPart (parseWqlF n) st p))
      (.ok ([], ⟨none, none⟩)) with
    | .error e => .error e
    | .ok (terms, tr) =>
      .ok { search_terms := terms
            time_range := if pyTruthyS tr.earliest || pyTruthyS tr.latest then some tr else none }

/-- `_parse_wql`: WQL query → IR dict. -/
def parseWql (query : List Char) : Except PyErr WqlParsed :=
  parseWqlF (query.length + 1) query

/-- Rendering of one search term as a LEQL `where` clause
(`_spl_to_leql`, search-term loop): a fielded term with a recognized operator
becomes `field <op> 'value'`, a fielded term with any other operator is
silently dropped (the `if`/`elif` chain has no `else`), a field-less term or
plain string becomes `message contains 'value'`. -/
def splToLeqlClause : SplTerm → List (List Char)
  | .term t =>
    if pyTruthyS t.field then
      let f := pyOptStr t.field
      if t.operator = "=".toList then [f ++ " = '".toList ++ t.value ++ ['\'']]
      else if t.operator = "!=".toList then [f ++ " != '".toList ++ t.value ++ ['\'']]
      else if t.operator = ">".toList then [f ++ " > '".toList ++ t.value ++ ['\'']]
      else if t.operator = "<".toList then [f ++ " < '".toList ++ t.value ++ ['\'']]
      else if t.operator = ">=".toList then [f ++ " >= '".toList ++ t.value ++ ['\'']]
      else if t.operator = "<=".toList then [f ++ " <= '".toList ++ t.value ++ ['\'']]
      else []
    else ["message contains '".toList ++ t.value ++ ['\'']]
  | .free s => ["message contains '".toList ++ s ++ ['\'']]

/-- Rendering of one pipeline command in `_spl_to_leql` (the parts it appends
to `leql_parts`).  The order of the `if`/`elif` tests is the source's; the
later `stats`-with-`avg`/`sum`/`min`/`max` branches repeat the condition
`cmd['name'] == 'stats'` already caught by the first branch, so they are
unreachable, exactly as in the source. -/
def splToLeqlCmd (cmd : Cmd) : List (List Char) :=
  if cmd.name = "stats".toList then
    (if "count".toList ∈ cmd.args then
      ["calculate(count)".toList] ++
      (if "by".toList ∈ cmd.args then
        let byIndex := cmd.args.findIdx (fun a => a = "by".toList)
        if byIndex + 1 < cmd.args.length then
          ["groupby(".toList ++ pyJoin ", ".toList (cmd.args.drop (byIndex + 1)) ++ [')']]
        else []
      else [])
    else [])
  else if cmd.name = "table".toList then
    if !cmd.args.isEmpty then
      ["select (".toList ++ pyJoin ", ".toList cmd.args ++ [')']]
    else []
  else if cmd.name = "sort".toList then
    if cmd.args.length ≥ 2 then
      let direction := lowerStr (cmd.args.getD 1 [])
      [("sort(".toList ++ (if direction = "desc".toList then "desc".toList else "asc".toList) ++ [')'])]
    else []
  else if cmd.name = "timeslice".toList then
    if cmd.args.length ≥ 1 then
      ["timeslice(".toList ++ cmd.args.getD 0 [] ++ [')']]
    else []
  else if cmd.name = "stats".toList && "avg".toList ∈ cmd.args then
    let fieldIndex := cmd.args.findIdx (fun a => a = "avg".toList) + 1
    if fieldIndex < cmd.args.length then
      ["calculate(average:".toList ++ cmd.args.getD fieldIndex [] ++ [')']]
    else []
  else if cmd.name = "stats".toList && "sum".toList ∈ cmd.args then
    let fieldIndex := cmd.args.findIdx (fun a => a = "sum".toList) + 1
    if fieldIndex < cmd.args.length then
      ["calculate(sum:".toList ++ cmd.args.getD fieldIndex [] ++ [')']]
    else []
  else if cmd.name = "stats".toList && "min".toList ∈ cmd.args then
    let fieldIndex := cmd.args.findIdx (fun a => a = "min".toList) + 1
    if fieldIndex < cmd.args.length then
      ["calculate(min:".toList ++ cmd.args.getD fieldIndex [] ++ [')']]
    else []
  else if cmd.name = "stats".toList && "max".toList ∈ cmd.args then
    let fieldIndex := cmd.args.findIdx (fun a => a = "max".toList) + 1
    if fieldIndex < cmd.args.length then
      ["calculate(max:".toList ++ cmd.args.getD fieldIndex [] ++ [')']]
    else []
  else []

/-- `_spl_to_leql`: parse the SPL query and render LEQL text. -/
def splToLeqlStr (query : List Char) : List Char :=
  let parsed := parseSpl query
  let timeParts : List (List Char) :=
    match parsed.time_range with
    | none => []
    | some tr =>
      (if pyTruthyS tr.earliest then
        let tv := tr.earliest.getD []
        ["from ".toList ++ (if tv.head? = some '-' then tv.drop 1 else tv)]
      else []) ++
      (if pyTruthyS tr.latest then ["to ".toList ++ tr.latest.getD []] else [])
  let whereClauses := parsed.search_terms.foldl (fun acc t => acc ++ splToLeqlClause t) []
  let whereParts : List (List Char) :=
    if !whereClauses.isEmpty then
      ["where (".toList ++ pyJoin " AND ".toList whereClauses ++ [')']]
    else []
  let cmdParts : List (List Char) :=
    match parsed.commands with
    | none => []
    | some cmds => cmds.foldl (fun acc c => acc ++ splToLeqlCmd c) []
  pyJoin " ".toList (timeParts ++ whereParts ++ cmdParts)

/-- Rendering of one search term as a WQL clause (`_spl_to_wql`). -/
def splToWqlClause : SplTerm → List (List Char)
  | .term t =>
    if pyTruthyS t.field then
      let f := pyOptStr t.field
      if t.operator = "=".toList then [f ++ ['='] ++ t.value]
      else if t.operator = "!=".toList then [f ++ "!=".toList ++ t.value]
      else if t.operator = ">".toList then [f ++ ['>'] ++ t.value]
      else if t.operator = "<".toList then [f ++ ['<'] ++ t.value]
      else if t.operator = ">=".toList then [f ++ ">=".toList ++ t.value]
      else if t.operator = "<=".toList then [f ++ "<=".toList ++ t.value]
      else []
    else ["message~".toList ++ t.value]
  | .free s => ["message~".toList ++ s]

/-- `_spl_to_wql`: parse the SPL query and render WQL text. -/
def splToWqlStr (query : List Char) : List Char :=
  let parsed := parseSpl query
  let timeParts : List (List Char) :=
    match parsed.time_range with
    | none => []
    | some tr =>
      let timeClause :=
        (if pyTruthyS tr.earliest then ["time>=".toList ++ tr.earliest.getD []] else []) ++
        (if pyTruthyS tr.latest then ["time<=".toList ++ tr.latest.getD []] else [])
      if !timeClause.isEmpty then ["time: ".toList ++ pyJoin ";".toList timeClause] else []
  let searchClauses := parsed.search_terms.foldl (fun acc t => acc ++ splToWqlClause t) []
  let wqlParts0 := timeParts ++
    (if !searchClauses.isEmpty then [pyJoin ";".toList searchClauses] else [])
  let wqlParts1 :=
    if wqlParts0.length > 1 then wqlParts0.map (fun p => ['('] ++ p ++ [')']) else wqlParts0
  let wqlParts2 := wqlParts1 ++
    (match parsed.commands with
     | none => []
     | some _ => ["(Note: WQL does not support SPL commands)".toList])
  pyJoin " ".toList wqlParts2

/-- `_leql_to_spl` rendering, applied to a parsed LEQL dict. -/
def leqlToSplRender (parsed : LeqlParsed) : List Char :=
  let searchTerms := parsed.search_terms.foldl (fun acc t =>
    if lowerStr t.operator = "icontains".toList then
      acc ++ [pyOptStr t.field ++ ['*'] ++ t.value ++ ['*']]
    else acc) []
  let splParts0 := if !searchTerms.isEmpty then [pyJoin " ".toList searchTerms] else []
  let splParts1 := splParts0 ++
    (match parsed.commands with
     | none => []
     | some cmds => cmds.foldl (fun acc c =>
        if c.name = "groupby".toList then
          acc ++ ["| stats count by ".toList ++ pyJoin ", ".toList c.args]
        else acc) [])
  pyJoin " ".toList splParts1

/-- `_leql_to_spl`: parse (propagating any exception) and render. -/
def leqlToSpl (query : List Char) : Except PyErr (Option (List Char)) :=
  match parseLeql query with
  | .error e => .error e
  | .ok parsed => .ok (some (leqlToSplRender parsed))

/-- `_leql_to_wql` rendering, applied to a parsed LEQL dict. -/
def leqlToWqlRender (parsed : LeqlParsed) : List Char :=
  let searchClauses := parsed.search_terms.foldl (fun acc t =>
    if lowerStr t.operator = "icontains".toList then
      acc ++ [pyOptStr t.field ++ ['~'] ++ t.value]
    else acc) []
  let wqlParts0 := if !searchClauses.isEmpty then [pyJoin ";".toList searchClauses] else []
  let wqlParts1 := wqlParts0 ++
    (match parsed.commands with
     | none => []
     | some cmds => cmds.foldl (fun acc c =>
        if c.name = "groupby".toList then
          acc ++ ["(Note: WQL does not support grouping operations)".toList]
        else acc) [])
  pyJoin " ".toList wqlParts1

/-- `_leql_to_wql`: parse (propagating any exception) and render. -/
def leqlToWql (query : List Char) : Except PyErr (Option (List Char)) :=
  match parseLeql query with
  | .error e => .error e
  | .ok parsed => .ok (some (leqlToWqlRender parsed))

/-- `_spl_to_leql` as a registered converter (always returns a string). -/
def splToLeql (query : List Char) : Except PyErr (Option (List Char)) :=
  .ok (some (splToLeqlStr query))

/-- `_spl_to_wql` as a registered converter (always returns a string). -/
def splToWql (query : List Char) : Except PyErr (Option (List Char)) :=
  .ok (some (splToWqlStr query))

/-- `_wql_to_spl`: the body is `pass` (a TODO stub), so the Python function
returns `None`. -/
def wqlToSpl (_query : List Char) : Except PyErr (Option (List Char)) := .ok none

/-- `_wql_to_leql`: the body is `pass` (a TODO stub), so the Python function
returns `None`. -/
def wqlToLeql (_query : List Char) : Except PyErr (Option (List Char)) := .ok none

/-- The `self.converters` routing table: all six ordered non-identity pairs. -/
def convLookup : QueryLanguage → QueryLanguage →
    Option (List Char → Except PyErr (Option (List Char)))
  | .spl, .leql => some splToLeql
  | .spl, .wql => some splToWql
  | .leql, .spl => some leqlToSpl
  | .leql, .wql => some leqlToWql
  | .wql, .spl => some wqlToSpl
  | .wql, .leql => some wqlToLeql
  | _, _ => none

/-- `convert_query`: identity returns the input unchanged; otherwise look up
the converter for the ordered pair, raising `ValueError` if absent (never the
case here), and let any converter exception propagate (the `try`/`except`
only logs and re-raises). -/
def convertQuery (query : List Char) (sourceLang targetLang : QueryLanguage) :
    Except PyErr (Option (List Char)) :=
  if sourceLang = targetLang then .ok (some query)
  else
    match convLookup sourceLang targetLang with
    | none => .error (.valueError ("Conversion from ".toList ++ sourceLang.value ++
        " to ".toList ++ targetLang.value ++ " is not supported".toList))
    | some f => f query

/-- `convert_to_all_languages`: iterate the languages in enum order, skip the
source, and per target store either the converted value or the string
`"Error: " + str(e)` if the conversion raised.  The result dict is modelled
as an association list in insertion order. -/
def convertToAll (query : List Char) (sourceLang : QueryLanguage) :
    List (List Char × Option (List Char)) :=
  qlList.filterMap (fun t =>
    if t = sourceLang then none
    else some (t.value,
      match convertQuery query sourceLang t with
      | .ok v => v
      | .error e => some ("Error: ".toList ++ pyErrStr e)))

/-- A WQL clause (already stripped) that fires none of the classification
branches of `_parse_wql`: no `time:` prefix, none of the operator characters
`=`, `>`, `<`, `~` (which also rules out `!=`, `>=`, `<=`), and not a
parenthesized group.  Such a clause contributes nothing to the IR. -/
def noWqlPattern (part : List Char) : Bool :=
  !(("time:".toList).isPrefixOf part) &&
  !containsSub "=".toList part &&
  !containsSub ">".toList part &&
  !containsSub "<".toList part &&
  !containsSub "~".toList part &&
  !((("(".toList).isPrefixOf part) && ((")".toList).isSuffixOf part))

/-! ### Basic lemmas about the string primitives -/

/-- A split never produces the empty list of pieces. -/
theorem splitOnP_ne_nil (p : Char → Bool) (s : List Char) : splitOnP p s ≠ [] := by
  induction s with
  | nil => simp [splitOnP]
  | cons c rest ih =>
    simp only [splitOnP]
    by_cases hc : p c
    · simp [hc]
    · simp only [hc, if_neg, Bool.false_eq_true, if_false]
      cases hr : splitOnP p rest with
      | nil => simp
      | cons h t => simp

/-- Every piece of a split is at most as long as the input. -/
theorem mem_splitOnP_length_le {p : Char → Bool} {s l : List Char}
    (h : l ∈ splitOnP p s) : l.length ≤ s.length := by
  induction s generalizing l with
  | nil => simp [splitOnP] at h; simp [h]
  | cons c rest ih =>
    simp only [splitOnP] at h
    by_cases hc : p c
    · simp only [hc, if_true] at h
      rcases List.mem_cons.mp h with h1 | h2
      · simp [h1]
      · exact Nat.le_succ_of_le (ih h2)
    · simp only [hc, Bool.false_eq_true, if_false] at h
      cases hr : splitOnP p rest with
      | nil => exact absurd hr (splitOnP_ne_nil p rest)
      | cons hd tl =>
        rw [hr] at h
        rcases List.mem_cons.mp h with h1 | h2
        · subst h1
          have : hd ∈ splitOnP p rest := by rw [hr]; exact List.mem_cons_self _ _
          have := ih this
          simpa using Nat.succ_le_succ this
        · have : l ∈ splitOnP p rest := by rw [hr]; exact List.mem_cons_of_mem _ h2
          exact Nat.le_succ_of_le (ih this)

/-- `dropWhile` never lengthens a list. -/
theorem length_dropWhile_le (p : Char → Bool) (l : List Char) :
    (l.dropWhile p).length ≤ l.length :=
  List.Sublist.length_le (List.dropWhile_sublist p)

/-- `stripP` never lengthens a list. -/
theorem stripP_length_le (p : Char → Bool) (s : List Char) :
    (stripP p s).length ≤ s.length := by
  unfold stripP
  calc ((s.dropWhile p).reverse.dropWhile p).reverse.length
      = ((s.dropWhile p).reverse.dropWhile p).length := by rw [List.length_reverse]
    _ ≤ (s.dropWhile p).reverse.length := length_dropWhile_le _ _
    _ = (s.dropWhile p).length := by rw [List.length_reverse]
    _ ≤ s.length := length_dropWhile_le _ _

/-- `pyStrip` never lengthens a list. -/
theorem pyStrip_length_le (s : List Char) : (pyStrip s).length ≤ s.length :=
  stripP_length_le _ _

/-- Characterization of `findSubAux` success in terms of an occurrence. -/
theorem findSubAux_isSome_iff {sub s : List Char} {i : Nat} :
    (findSubAux sub s i).isSome = true ↔ ∃ j, sub.isPrefixOf (s.drop j) := by
  induction s generalizing i with
  | nil =>
    unfold findSubAux
    by_cases h : sub.isPrefixOf ([] : List Char)
    · simp only [h, if_true, Option.isSome_some, true_iff]
      exact ⟨0, h⟩
    · simp only [h, Bool.false_eq_true, if_false]
      constructor
      · intro hh; simp at hh
      · rintro ⟨j, hj⟩
        simp only [List.drop_nil] at hj
        exact absurd hj h
  | cons c t ih =>
    unfold findSubAux
    by_cases h : sub.isPrefixOf (c :: t)
    · simp only [h, if_true, Option.isSome_some, true_iff]
      exact ⟨0, by simpa using h⟩
    · simp only [h, Bool.false_eq_true, if_false]
      rw [ih]
      constructor
      · rintro ⟨j, hj⟩; exact ⟨j + 1, by simpa using hj⟩
      · rintro ⟨j, hj⟩
        cases j with
        | zero => simp only [List.drop_zero] at hj; exact absurd hj h
        | succ j => exact ⟨j, by simpa using hj⟩

/-- Python `sub in s` holds exactly when `sub` occurs at some offset. -/
theorem containsSub_iff {sub s : List Char} :
    containsSub sub s = true ↔ ∃ j, sub.isPrefixOf (s.drop j) := by
  unfold containsSub findSub
  exact findSubAux_isSome_iff

/-- `findSub` failure is exactly `not in`. -/
theorem findSub_eq_none_iff {sub s : List Char} :
    findSub sub s = none ↔ containsSub sub s = false := by
  unfold containsSub
  cases h : findSub sub s <;> simp [h]

/-- If a two-character string occurs in `s`, so does its second character. -/
theorem containsSub_snd_of_pair {a b : Char} {s : List Char}
    (h : containsSub [a, b] s = true) : containsSub [b] s = true := by
  rw [containsSub_iff] at h ⊢
  rcases h with ⟨j, hj⟩
  refine ⟨j + 1, ?_⟩
  have hdrop : s.drop (j + 1) = (s.drop j).drop 1 := by
    rw [List.drop_drop]
  cases hd : s.drop j with
  | nil => rw [hd] at hj; simp [List.isPrefixOf] at hj
  | cons x u =>
    cases u with
    | nil => rw [hd] at hj; simp [List.isPrefixOf] at hj
    | cons y v =>
      rw [hd] at hj
      simp only [List.isPrefixOf, Bool.and_eq_true, beq_iff_eq] at hj
      rw [hdrop, hd]
      simp [List.isPrefixOf, hj.2.1]

/-- A fold of `Except.bind` steps over an error stays that error. -/
theorem foldl_bind_error {ε σ π : Type} (g : σ → π → Except ε σ) (ps : List π) (e : ε) :
    ps.foldl (fun (acc : Except ε σ) p => acc.bind (fun st => g st p)) (.error e) = .error e := by
  induction ps with
  | nil => rfl
  | cons p ps ih => simpa [Except.bind] using ih

/-! ### Lemmas about the WQL parser -/

/-- A stripped clause that both starts with `(` and ends with `)` has at
least two characters. -/
theorem paren_two_le {part : List Char}
    (h1 : ("(".toList).isPrefixOf part = true)
    (h2 : (")".toList).isSuffixOf part = true) : 2 ≤ part.length := by
  rcases part with _ | ⟨c, _ | ⟨d, u⟩⟩
  · simp [List.isPrefixOf] at h1
  · have hp := List.isPrefixOf_iff_prefix.mp h1
    have hs := List.isSuffixOf_iff_suffix.mp h2
    have hc1 : c = '(' := ((List.cons_prefix_cons.mp hp).1).symm
    have hc2 : [')'] = [c] := List.IsSuffix.eq_of_length hs (by simp)
    rw [hc1] at hc2
    simp at hc2
  · simp

/-- Length bound for the recursive call of the parenthesized-group branch. -/
theorem inner_length_bound {part : List Char}
    (h1 : ("(".toList).isPrefixOf part = true)
    (h2 : (")".toList).isSuffixOf part = true) :
    (pyStrip ((part.drop 1).dropLast)).length + 2 ≤ part.length := by
  have hl2 := paren_two_le h1 h2
  have hs := pyStrip_length_le ((part.drop 1).dropLast)
  have hd : ((part.drop 1).dropLast).length = part.length - 1 - 1 := by
    simp [List.length_dropLast, List.length_drop]
  omega

/-- A clause with no recognizable WQL pattern leaves the parser state
unchanged. -/
theorem wqlPart_noop (recur : List Char → Except PyErr WqlParsed)
    (st : List SearchTerm × TimeRange) (p : List Char)
    (h : noWqlPattern (pyStrip p) = true) : wqlPart recur st p = .ok st := by
  obtain ⟨terms, tr⟩ := st
  simp only [noWqlPattern, Bool.and_eq_true, Bool.not_eq_true'] at h
  obtain ⟨⟨⟨⟨⟨h1, h2⟩, h3⟩, h4⟩, h5⟩, h6⟩ := h
  have e1 : findSub "=".toList (pyStrip p) = none := findSub_eq_none_iff.mpr h2
  have c2 : containsSub "!=".toList (pyStrip p) = false := by
    cases hc : containsSub "!=".toList (pyStrip p)
    · rfl
    · have hc' : containsSub ['!', '='] (pyStrip p) = true := hc
      have h2' : containsSub ['='] (pyStrip p) = true := containsSub_snd_of_pair hc'
      have h2l : containsSub ['='] (pyStrip p) = false := h2
      rw [h2l] at h2'
      exact h2'.symm
  have e2 : findSub "!=".toList (pyStrip p) = none := findSub_eq_none_iff.mpr c2
  have cge : containsSub ">=".toList (pyStrip p) = false := by
    cases hc : containsSub ">=".toList (pyStrip p)
    · rfl
    · have hc' : containsSub ['>', '='] (pyStrip p) = true := hc
      have h2' : containsSub ['='] (pyStrip p) = true := containsSub_snd_of_pair hc'
      have h2l : containsSub ['='] (pyStrip p) = false := h2
      rw [h2l] at h2'
      exact h2'.symm
  have ege : findSub ">=".toList (pyStrip p) = none := findSub_eq_none_iff.mpr cge
  have cle : containsSub "<=".toList (pyStrip p) = false := by
    cases hc : containsSub "<=".toList (pyStrip p)
    · rfl
    · have hc' : containsSub ['<', '='] (pyStrip p) = true := hc
      have h2' : containsSub ['='] (pyStrip p) = true := containsSub_snd_of_pair hc'
      have h2l : containsSub ['='] (pyStrip p) = false := h2
      rw [h2l] at h2'
      exact h2'.symm
  have ele : findSub "<=".toList (pyStrip p) = none := findSub_eq_none_iff.mpr cle
  have e5 : findSub "~".toList (pyStrip p) = none := findSub_eq_none_iff.mpr h5
  simp only [wqlPart, h1, e1, e2, h3, h4, ege, ele, e5, h6, Bool.false_and,
    Bool.false_eq_true, if_false]

/-- `wqlPart` only fails when the recursive group call fails: with enough
fuel for every strictly smaller inner query, it succeeds. -/
theorem wqlPart_isOk (recur : List Char → Except PyErr WqlParsed)
    (st : List SearchTerm × TimeRange) (p : List Char)
    (hrec : ∀ q, q.length + 2 ≤ (pyStrip p).length → (recur q).isOk = true) :
    (wqlPart recur st p).isOk = true := by
  obtain ⟨terms, tr⟩ := st
  simp only [wqlPart]
  repeat' split
  all_goals try rfl
  all_goals
    exfalso
    rename_i hcond x e heq
    rw [Bool.and_eq_true] at hcond
    have hb := inner_length_bound hcond.1 hcond.2
    have hok := hrec _ hb
    rw [heq] at hok
    simp [Except.isOk, Except.toBool] at hok

/-- A two-character pattern cannot be found when its second character is
absent. -/
theorem findSub_pair_some_absurd {a b : Char} {s : List Char} {i : Nat}
    (hpair : findSub [a, b] s = some i) (hsingle : findSub [b] s = none) : False := by
  have h1 : containsSub [a, b] s = true := by
    unfold containsSub
    rw [hpair]
    rfl
  have h2 := containsSub_snd_of_pair h1
  unfold containsSub at h2
  rw [hsingle] at h2
  simp at h2

/-- Every search term appended by one `_parse_wql` clause carries one of the
four reachable operators `=`, `>`, `<`, `~` (the `!=`, `>=`, `<=` branches
are dead: each is preceded by the `=` test, and any clause containing the
two-character operator also contains `=`). -/
theorem wqlPart_ops (recur : List Char → Except PyErr WqlParsed)
    (st : List SearchTerm × TimeRange) (p : List Char)
    (r : List SearchTerm × TimeRange)
    (h : wqlPart recur st p = .ok r)
    (hst : ∀ t ∈ st.1, t.operator = "=".toList ∨ t.operator = ">".toList ∨
      t.operator = "<".toList ∨ t.operator = "~".toList)
    (hrec : ∀ q r', recur q = .ok r' → ∀ t ∈ r'.search_terms,
      t.operator = "=".toList ∨ t.operator = ">".toList ∨
      t.operator = "<".toList ∨ t.operator = "~".toList) :
    ∀ t ∈ r.1, t.operator = "=".toList ∨ t.operator = ">".toList ∨
      t.operator = "<".toList ∨ t.operator = "~".toList := by
  obtain ⟨terms, tr⟩ := st
  simp only [wqlPart] at h
  split at h
  · cases h
    intro t ht
    exact hst t ht
  · split at h
    · cases h
      intro t ht
      rcases List.mem_append.mp ht with h1 | h2
      · exact hst t h1
      · simp only [List.mem_singleton] at h2
        subst h2
        left; rfl
    · split at h
      · exfalso
        rename_i hEqNone x i hNeSome
        exact findSub_pair_some_absurd hNeSome hEqNone
      · split at h
        · split at h
          · cases h
            intro t ht
            rcases List.mem_append.mp ht with h1 | h2
            · exact hst t h1
            · simp only [List.mem_singleton] at h2
              subst h2
              right; left; rfl
          · cases h
            intro t ht
            exact hst t ht
        · split at h
          · split at h
            · cases h
              intro t ht
              rcases List.mem_append.mp ht with h1 | h2
              · exact hst t h1
              · simp only [List.mem_singleton] at h2
                subst h2
                right; right; left; rfl
            · cases h
              intro t ht
              exact hst t ht
          · split at h
            · exfalso
              rename_i hEqNone x1 hNeNone hGt hLt x2 i hGeSome
              exact findSub_pair_some_absurd hGeSome hEqNone
            · split at h
              · exfalso
                rename_i hEqNone x1 hNeNone hGt hLt x2 hGeNone x3 i hLeSome
                exact findSub_pair_some_absurd hLeSome hEqNone
              · split at h
                · cases h
                  intro t ht
                  rcases List.mem_append.mp ht with h1 | h2
                  · exact hst t h1
                  · simp only [List.mem_singleton] at h2
                    subst h2
                    right; right; right; rfl
                · split at h
                  · split at h
                    · exact absurd h (by simp)
                    · cases h
                      intro t ht
                      rcases List.mem_append.mp ht with h1 | h2
                      · exact hst t h1
                      · rcases List.mem_map.mp h2 with ⟨t', ht', rfl⟩
                        rename_i innerRes hInner
                        have := hrec _ _ hInner t' ht'
                        simpa using this
                  · cases h
                    intro t ht
                    exact hst t ht

/-- The clause fold of `_parse_wql` succeeds when every clause is at least
two characters longer than any query the recursive call will see. -/
theorem wqlFold_isOk (n : Nat) (parts : List (List Char))
    (hparts : ∀ p ∈ parts, ∀ q, q.length + 2 ≤ (pyStrip p).length →
      (parseWqlF n q).isOk = true)
    (acc : Except PyErr (List SearchTerm × TimeRange)) (hacc : acc.isOk = true) :
    (parts.foldl (fun (acc : Except PyErr (List SearchTerm × TimeRange)) p =>
      acc.bind (fun st => wqlPart (parseWqlF n) st p)) acc).isOk = true := by
  induction parts generalizing acc with
  | nil => exact hacc
  | cons p ps ih =>
    simp only [List.foldl_cons]
    apply ih
    · intro p' hp'
      exact hparts p' (List.mem_cons_of_mem _ hp')
    · cases acc with
      | error e => simp [Except.isOk, Except.toBool] at hacc
      | ok st =>
        show (wqlPart (parseWqlF n) st p).isOk = true
        exact wqlPart_isOk _ _ _ (hparts p (List.mem_cons_self _ _))

/-- Fuel `n > query.length` always suffices for `_parse_wql`: the parser
never hits the recursion limit. -/
theorem parseWqlF_isOk : ∀ n q, q.length < n → (parseWqlF n q).isOk = true := by
  intro n
  induction n with
  | zero => intro q h; omega
  | succ n ih =>
    intro q h
    simp only [parseWqlF]
    have hfold := wqlFold_isOk n (splitOnP (fun c => c = ';') q)
      (by
        intro p hp q' hq'
        have h1 : p.length ≤ q.length := mem_splitOnP_length_le hp
        have h2 : (pyStrip p).length ≤ p.length := pyStrip_length_le p
        apply ih
        omega)
      (.ok ([], ⟨none, none⟩)) rfl
    split
    · rename_i e heq
      rw [heq] at hfold
      simp [Except.isOk, Except.toBool] at hfold
    · rfl

/-- `_parse_wql` never raises: with the standard fuel it always returns. -/
theorem parseWql_isOk (q : List Char) : (parseWql q).isOk = true :=
  parseWqlF_isOk (q.length + 1) q (Nat.lt_succ_self _)

/-- A fold over clauses that all lack WQL patterns leaves the state alone. -/
theorem wqlFold_noop (n : Nat) (parts : List (List Char))
    (hparts : ∀ p ∈ parts, noWqlPattern (pyStrip p) = true)
    (st : List SearchTerm × TimeRange) :
    parts.foldl (fun (acc : Except PyErr (List SearchTerm × TimeRange)) p =>
      acc.bind (fun st => wqlPart (parseWqlF n) st p)) (.ok st) = .ok st := by
  induction parts with
  | nil => rfl
  | cons p ps ih =>
    simp only [List.foldl_cons]
    have hstep : (Except.ok st).bind (fun st => wqlPart (parseWqlF n) st p) =
        (.ok st : Except PyErr (List SearchTerm × TimeRange)) := by
      show wqlPart (parseWqlF n) st p = .ok st
      exact wqlPart_noop _ _ _ (hparts p (List.mem_cons_self _ _))
    rw [hstep]
    exact ih (fun p' hp' => hparts p' (List.mem_cons_of_mem _ hp'))

/-- A query none of whose `;`-clauses shows any WQL pattern parses to the
empty IR. -/
theorem parseWql_empty (q : List Char)
    (h : ∀ p ∈ splitOnP (fun c => c = ';') q, noWqlPattern (pyStrip p) = true) :
    parseWql q = .ok ⟨[], none⟩ := by
  unfold parseWql
  simp only [parseWqlF]
  rw [wqlFold_noop q.length (splitOnP (fun c => c = ';') q) h ([], ⟨none, none⟩)]
  rfl

/-- Operator invariant through the clause fold of `_parse_wql`. -/
theorem wqlFold_ops (n : Nat)
    (hIH : ∀ q r, parseWqlF n q = .ok r → ∀ t ∈ r.search_terms,
      t.operator = "=".toList ∨ t.operator = ">".toList ∨
      t.operator = "<".toList ∨ t.operator = "~".toList) :
    ∀ (parts : List (List Char)) (acc : Except PyErr (List SearchTerm × TimeRange)),
    (∀ st, acc = .ok st → ∀ t ∈ st.1,
      t.operator = "=".toList ∨ t.operator = ">".toList ∨
      t.operator = "<".toList ∨ t.operator = "~".toList) →
    ∀ res, parts.foldl (fun (acc : Except PyErr (List SearchTerm × TimeRange)) p =>
      acc.bind (fun st => wqlPart (parseWqlF n) st p)) acc = .ok res →
    ∀ t ∈ res.1,
      t.operator = "=".toList ∨ t.operator = ">".toList ∨
      t.operator = "<".toList ∨ t.operator = "~".toList := by
  intro parts
  induction parts with
  | nil =>
    intro acc hacc res hres
    exact hacc res hres
  | cons p ps ih =>
    intro acc hacc res hres
    simp only [List.foldl_cons] at hres
    refine ih _ ?_ res hres
    intro st' hst'
    cases acc with
    | error e =>
      rw [show (Except.error e).bind (fun st => wqlPart (parseWqlF n) st p) =
        (.error e : Except PyErr (List SearchTerm × TimeRange)) from rfl] at hst'
      exact Except.noConfusion hst'
    | ok st =>
      have hstep : (Except.ok st).bind (fun st => wqlPart (parseWqlF n) st p) =
          wqlPart (parseWqlF n) st p := rfl
      rw [hstep] at hst'
      exact wqlPart_ops _ _ _ _ hst' (hacc st rfl) hIH

/-- Every search term produced by `_parse_wql` (at any fuel) carries one of
the operators `=`, `>`, `<`, `~`. -/
theorem parseWqlF_ops : ∀ n q r, parseWqlF n q = .ok r → ∀ t ∈ r.search_terms,
    t.operator = "=".toList ∨ t.operator = ">".toList ∨
    t.operator = "<".toList ∨ t.operator = "~".toList := by
  intro n
  induction n with
  | zero =>
    intro q r h
    exact Except.noConfusion h
  | succ n ih =>
    intro q r h
    simp only [parseWqlF] at h
    split at h
    · exact Except.noConfusion h
    · rename_i terms tr heq
      cases h
      intro t ht
      exact wqlFold_ops n ih (splitOnP (fun c => c = ';') q)
        (.ok ([], ⟨none, none⟩))
        (by intro st hst; cases hst; intro t ht; exact absurd ht (List.not_mem_nil t))
        (terms, tr) heq t ht

/-- If `_parse_wql` reports a time range, at least one bound is a non-empty
string (Python truthiness of the guarding condition). -/
theorem parseWqlF_time : ∀ n q r t, parseWqlF n q = .ok r → r.time_range = some t →
    (pyTruthyS t.earliest || pyTruthyS t.latest) = true := by
  intro n q r t h ht
  cases n with
  | zero => exact Except.noConfusion h
  | succ n =>
    simp only [parseWqlF] at h
    split at h
    · exact Except.noConfusion h
    · cases h
      simp only at ht
      split at ht
      · rename_i hcond
        cases ht
        exact hcond
      · exact Option.noConfusion ht

/-! ### Lemmas about the LEQL parser -/

/-- `_parse_leql` never raises: the `ICONTAINS` unpacking is guarded. -/
theorem parseLeql_isOk (q : List Char) : (parseLeql q).isOk = true := by
  unfold parseLeql
  by_cases hw : containsSub "where(".toList q = true
  · simp only [hw, if_true]
    cases hfe : findSubFrom ")".toList q ((findSub "where(".toList q).getD 0) with
    | none => simp only [hfe]; rfl
    | some we =>
      simp only [hfe]
      by_cases hic : containsSub "ICONTAINS".toList
          (pySlice q ((findSub "where(".toList q).getD 0 + 6) we) = true
      · obtain ⟨i, hi⟩ : ∃ i, findSub "ICONTAINS".toList
            (pySlice q ((findSub "where(".toList q).getD 0 + 6) we) = some i := by
          unfold containsSub at hic
          cases hfs : findSub "ICONTAINS".toList
              (pySlice q ((findSub "where(".toList q).getD 0 + 6) we) with
          | none => rw [hfs] at hic; simp at hic
          | some i => exact ⟨i, rfl⟩
        simp only [hic, if_true, pySplit1, hi]
        rfl
      · simp only [Bool.not_eq_true] at hic
        simp only [hic, Bool.false_eq_true, if_false]
        rfl
  · simp only [Bool.not_eq_true] at hw
    simp only [hw, Bool.false_eq_true, if_false]
    rfl

/-- `_parse_leql` never reports a time range at all. -/
theorem parseLeql_time (q : List Char) (r : LeqlParsed) (h : parseLeql q = .ok r) :
    r.time_range = none := by
  unfold parseLeql at h
  repeat' split at h
  all_goals first
    | exact Except.noConfusion h
    | (cases h; rfl)
    | simp_all [pyTruthyS]

/-- A query containing neither `where(` nor `groupby(` parses to the empty
LEQL IR. -/
theorem parseLeql_empty (q : List Char)
    (h1 : containsSub "where(".toList q = false)
    (h2 : containsSub "groupby(".toList q = false) :
    parseLeql q = .ok ⟨[], none, none⟩ := by
  unfold parseLeql
  simp only [h1, h2, Bool.false_eq_true, if_false]
  rfl

/-! ### Lemmas about the SPL parser -/

/-- Splitting on a character that never occurs returns the whole string. -/
theorem splitOnP_all_false {p : Char → Bool} {q : List Char}
    (h : ∀ c ∈ q, p c = false) : splitOnP p q = [q] := by
  induction q with
  | nil => rfl
  | cons c t ih =>
    have hc : p c = false := h c (List.mem_cons_self _ _)
    have ht : splitOnP p t = [t] := ih (fun c' hc' => h c' (List.mem_cons_of_mem _ hc'))
    simp only [splitOnP, hc, Bool.false_eq_true, if_false, ht]

/-- Stripping an all-whitespace string yields the empty string. -/
theorem pyStrip_all_ws {q : List Char} (h : ∀ c ∈ q, isPyWs c = true) :
    pyStrip q = [] := by
  unfold pyStrip stripP
  rw [List.dropWhile_eq_nil_iff.mpr h]
  rfl

/-- An all-whitespace SPL query parses to the empty IR. -/
theorem parseSpl_ws_empty (q : List Char) (h : ∀ c ∈ q, isPyWs c = true) :
    parseSpl q = ⟨[], none, none, none, none⟩ := by
  have h1 : splitOnP (fun c => c = '|') q = [q] := by
    apply splitOnP_all_false
    intro c hc
    have hw := h c hc
    by_cases hce : c = '|'
    · subst hce; simp [isPyWs] at hw
    · simp [hce]
  have h2 : pyStrip q = [] := pyStrip_all_ws h
  simp only [parseSpl, h1, List.headD, h2]
  rfl

/-- If `_parse_spl` reports a time range, at least one bound is a non-empty
string. -/
theorem parseSpl_time (q : List Char) (t : TimeRange)
    (h : (parseSpl q).time_range = some t) :
    (pyTruthyS t.earliest || pyTruthyS t.latest) = true := by
  unfold parseSpl at h
  repeat' split at h
  all_goals first
    | (cases h; assumption)
    | exact Option.noConfusion h

/-- The command list of `_parse_spl` is exactly the per-segment command
construction over the pipeline segments, wrapped in the emptiness test. -/
theorem parseSpl_commands (q : List Char) :
    (parseSpl q).commands =
      (if ((((splitOnP (fun c => c = '|') q).tail.filterMap splCmdStep).map Prod.fst).isEmpty)
       then none
       else some (((splitOnP (fun c => c = '|') q).tail.filterMap splCmdStep).map Prod.fst)) := by
  unfold parseSpl
  split
  split
  rfl

/-- A pipeline segment whose first token is none of `BY`, `AS`, `LOOKUP`
(case-insensitively) yields a command named by that token whose argument
list is the full token list, the command name included. -/
theorem splCmdStep_plain (part : List Char) (name : List Char) (rest : List (List Char))
    (htoks : pySplitWs (pyStrip part) = name :: rest)
    (hby : upperStr name ≠ "BY".toList)
    (has : upperStr name ≠ "AS".toList)
    (hlook : upperStr name ≠ "LOOKUP".toList) :
    splCmdStep part = some (⟨name, name :: rest⟩, none) := by
  unfold splCmdStep
  rw [htoks]
  simp only [hby, has, hlook, if_false]

/-- Any pipeline segment (a piece of the split on `|` other than the first)
whose first whitespace token is not `BY`/`AS`/`LOOKUP` contributes the
command `{name := token, args := full token list}` to `_parse_spl`'s
command sequence. -/
theorem parseSpl_plain_command_mem (q part : List Char) (name : List Char)
    (rest : List (List Char))
    (hpart : part ∈ (splitOnP (fun c => c = '|') q).tail)
    (htoks : pySplitWs (pyStrip part) = name :: rest)
    (hby : upperStr name ≠ "BY".toList)
    (has : upperStr name ≠ "AS".toList)
    (hlook : upperStr name ≠ "LOOKUP".toList) :
    (⟨name, name :: rest⟩ : Cmd) ∈ ((parseSpl q).commands).getD [] := by
  have hstep := splCmdStep_plain part name rest htoks hby has hlook
  have hmem : (⟨name, name :: rest⟩ : Cmd) ∈
      ((splitOnP (fun c => c = '|') q).tail.filterMap splCmdStep).map Prod.fst := by
    apply List.mem_map.mpr
    exact ⟨(⟨name, name :: rest⟩, none), List.mem_filterMap.mpr ⟨part, hpart, hstep⟩, rfl⟩
  rw [parseSpl_commands]
  have hne : ((((splitOnP (fun c => c = '|') q).tail.filterMap splCmdStep).map Prod.fst).isEmpty) = false := by
    cases hl : ((splitOnP (fun c => c = '|') q).tail.filterMap splCmdStep).map Prod.fst with
    | nil => rw [hl] at hmem; exact absurd hmem (List.not_mem_nil _)
    | cons a l => rfl
  rw [hne]
  simpa using hmem

/-! ### Claim theorems -/

/-- C1: the spec demands that `_parse_wql` classify `"cpu>=90"` by the longer
operator first (field `cpu`, operator `>=`, value `90`).  The code instead
tests `'=' in part` before the two-character operators, so it splits at the
first `=` and produces field `cpu>`, operator `=`, value `90` — exactly the
outcome the claim forbids.  This theorem evaluates the embedded parser at the
failing input, exhibiting the divergence. -/
theorem claim1_wql_ge_clause_eval :
    parseWql "cpu>=90".toList =
      .ok ⟨[⟨"90".toList, some "cpu>".toList, "=".toList, false, false⟩], none⟩ := by
  decide

/-- C2: the spec demands that WQL→SPL and WQL→LEQL conversion return rendered
strings.  The code's `_wql_to_spl` and `_wql_to_leql` bodies are `pass`, so
both return `None` for every query; this theorem evaluates the dispatcher at
the failing input `"status=404"`, showing both conversions yield `None`
(modelled as `none`) rather than a string. -/
theorem claim2_wql_converters_return_none :
    convertQuery "status=404".toList .wql .spl = .ok none ∧
    convertQuery "status=404".toList .wql .leql = .ok none :=
  ⟨rfl, rfl⟩

/-- C3: all three parsers are total — `_parse_leql` and `_parse_wql` never
raise (their guarded unpackings and the group recursion always succeed), and
`_parse_spl` is a plain total function of its input (none of its operations
can raise, so its embedding needs no exception type).  Moreover an input
matching none of a language's known patterns yields an IR with empty term
and command lists: an all-whitespace SPL query, a LEQL query with neither
`where(` nor `groupby(` marker, and a WQL query none of whose `;`-clauses
shows a WQL pattern, all parse to empty IRs. -/
theorem claim3_parsers_total_and_lenient :
    (∀ q : List Char, (parseLeql q).isOk = true) ∧
    (∀ q : List Char, (parseWql q).isOk = true) ∧
    (∀ q : List Char, (∀ c ∈ q, isPyWs c = true) →
      parseSpl q = ⟨[], none, none, none, none⟩) ∧
    (∀ q : List Char, containsSub "where(".toList q = false →
      containsSub "groupby(".toList q = false → parseLeql q = .ok ⟨[], none, none⟩) ∧
    (∀ q : List Char, (∀ p ∈ splitOnP (fun c => c = ';') q, noWqlPattern (pyStrip p) = true) →
      parseWql q = .ok ⟨[], none⟩) :=
  ⟨parseLeql_isOk, parseWql_isOk, parseSpl_ws_empty,
   fun q h1 h2 => parseLeql_empty q h1 h2, parseWql_empty⟩

/-- Witness for C3 at concrete malformed inputs. -/
theorem claim3_witness :
    (parseLeql "xyz".toList).isOk = true ∧
    (parseWql "((((".toList).isOk = true ∧
    parseSpl "   ".toList = ⟨[], none, none, none, none⟩ ∧
    parseLeql "garbage input !!".toList = .ok ⟨[], none, none⟩ ∧
    parseWql "hello world".toList = .ok ⟨[], none⟩ :=
  ⟨claim3_parsers_total_and_lenient.1 _,
   claim3_parsers_total_and_lenient.2.1 _,
   claim3_parsers_total_and_lenient.2.2.1 _ (by decide),
   claim3_parsers_total_and_lenient.2.2.2.1 _ (by decide) (by decide),
   claim3_parsers_total_and_lenient.2.2.2.2 _ (by decide)⟩

/-- C4: `convert_query` with equal source and target language returns the
input query unchanged, for every query string and every language. -/
theorem claim4_identity_conversion :
    ∀ (q : List Char) (l : QueryLanguage), convertQuery q l l = .ok (some q) := by
  intro q l
  simp [convertQuery]

/-- C5: for every non-empty query, `convert_to_all_languages(q, SPL)` returns
a mapping whose key sequence is exactly `["leql", "wql"]` — in particular the
source key `"spl"` is never present.  (The keys do not depend on the query at
all.) -/
theorem claim5_convert_all_keys :
    ∀ q : List Char, q ≠ [] →
      (convertToAll q .spl).map Prod.fst = ["leql".toList, "wql".toList] := by
  intro q _
  rfl

/-- Witness for C5 at the concrete query `"error"`. -/
theorem claim5_witness :
    "error".toList ≠ ([] : List Char) ∧
    (convertToAll "error".toList .spl).map Prod.fst = ["leql".toList, "wql".toList] :=
  ⟨by decide, claim5_convert_all_keys "error".toList (by decide)⟩

/-- C6: `convert_to_all_languages` produces an entry for every target other
than the source (the batch always has exactly two entries), and each entry's
value is determined by that pair's own conversion alone: the converted value
on success, the string `"Error: " + str(e)` if that conversion raised `e`.
A failure of one pair can therefore neither remove nor alter the entries of
the sibling pairs. -/
theorem claim6_batch_isolation :
    ∀ (q : List Char) (s t : QueryLanguage), t ≠ s →
      (convertToAll q s).lookup t.value =
        some (match convertQuery q s t with
              | .ok v => v
              | .error e => some ("Error: ".toList ++ pyErrStr e)) ∧
      (convertToAll q s).length = 2 := by
  intro q s t h
  cases s <;> cases t <;> first | (exact absurd rfl h) | exact ⟨rfl, rfl⟩

/-- Witness for C6 at the concrete instance `("error", SPL, LEQL)`. -/
theorem claim6_witness :
    (convertToAll "error".toList .spl).lookup QueryLanguage.leql.value =
      some (match convertQuery "error".toList .spl .leql with
            | .ok v => v
            | .error e => some ("Error: ".toList ++ pyErrStr e)) ∧
    (convertToAll "error".toList .spl).length = 2 :=
  claim6_batch_isolation "error".toList .spl .leql (by decide)

/-- C7: the spec scenario expects the SPL→LEQL conversion of
`"error | stats count by status | table status count"` to contain
`"select (status, count)"`.  The code stores each plain command's own name at
the head of its `args` list, so the `table` command renders as
`"select (table, status, count)"` and the expected substring never occurs;
the repository's own test (`test_parse_spl_with_commands`) conversely expects
`args == ["status", "count"]`, which the code also violates.  This theorem
evaluates the conversion at the scenario input. -/
theorem claim7_spl_pipeline_eval :
    splToLeqlStr "error | stats count by status | table status count".toList =
      ("where (message contains 'error') calculate(count) groupby(status) " ++
        "select (table, status, count)").toList ∧
    containsSub "select (status, count)".toList
      (splToLeqlStr "error | stats count by status | table status count".toList) = false ∧
    containsSub "calculate(count)".toList
      (splToLeqlStr "error | stats count by status | table status count".toList) = true ∧
    containsSub "groupby(status)".toList
      (splToLeqlStr "error | stats count by status | table status count".toList) = true := by
  refine ⟨by decide, by decide, by decide, by decide⟩

/-- C8: across all three parsers, a reported time range always has at least
one bound that is a non-`None`, non-empty string (Python truthiness of the
guarding condition); an IR whose accumulated bounds are both unset or empty
is reported as `None`, never as a degenerate range object.  `_parse_leql`
never sets a bound, so its IR's time range is always absent; the two
positive instances show a found bound does surface as a present range. -/
theorem claim8_time_range_invariant :
    (∀ (q : List Char) (t : TimeRange), (parseSpl q).time_range = some t →
      (pyTruthyS t.earliest || pyTruthyS t.latest) = true) ∧
    (∀ (q : List Char) (r : LeqlParsed), parseLeql q = .ok r → r.time_range = none) ∧
    (∀ (q : List Char) (r : WqlParsed) (t : TimeRange), parseWql q = .ok r →
      r.time_range = some t → (pyTruthyS t.earliest || pyTruthyS t.latest) = true) ∧
    (parseSpl "earliest=-1d".toList).time_range = some ⟨some "-1d".toList, none⟩ ∧
    parseWql "time:t>5".toList = .ok ⟨[], some ⟨some "5".toList, none⟩⟩ :=
  ⟨parseSpl_time, parseLeql_time,
   fun q r t h ht => parseWqlF_time _ q r t h ht, by decide, by decide⟩

/-- Witness for C8 at concrete inputs for each parser. -/
theorem claim8_witness :
    (pyTruthyS (some "-1d".toList) || pyTruthyS (none : Option (List Char))) = true ∧
    (⟨[], none, none⟩ : LeqlParsed).time_range = none ∧
    (pyTruthyS (some "5".toList) || pyTruthyS (none : Option (List Char))) = true :=
  ⟨claim8_time_range_invariant.1 "earliest=-1d".toList ⟨some "-1d".toList, none⟩ (by decide),
   claim8_time_range_invariant.2.1 "xyz".toList ⟨[], none, none⟩ (by decide),
   claim8_time_range_invariant.2.2.1 "time:t>5".toList ⟨[], some ⟨some "5".toList, none⟩⟩
     ⟨some "5".toList, none⟩ (by decide) rfl⟩

/-- C9: `_parse_wql` can never produce a search term whose operator is `!=`,
`>=` or `<=`: the clause classification tests `'=' in part` before those
operators, and every clause containing one of them also contains `=`, so the
corresponding branches are unreachable for every input. -/
theorem claim9_two_char_ops_unreachable :
    ∀ (q : List Char) (r : WqlParsed), parseWql q = .ok r → ∀ t ∈ r.search_terms,
      t.operator ≠ "!=".toList ∧ t.operator ≠ ">=".toList ∧ t.operator ≠ "<=".toList := by
  intro q r h t ht
  rcases parseWqlF_ops _ q r h t ht with h1 | h1 | h1 | h1 <;>
    rw [h1] <;> exact ⟨by decide, by decide, by decide⟩

/-- Witness for C9 at the concrete clause `"cpu>90"`, whose single term has
operator `>`. -/
theorem claim9_witness :
    (⟨"90".toList, some "cpu".toList, ">".toList, false, false⟩ : SearchTerm).operator ≠
      "!=".toList ∧
    (⟨"90".toList, some "cpu".toList, ">".toList, false, false⟩ : SearchTerm).operator ≠
      ">=".toList ∧
    (⟨"90".toList, some "cpu".toList, ">".toList, false, false⟩ : SearchTerm).operator ≠
      "<=".toList :=
  claim9_two_char_ops_unreachable "cpu>90".toList
    ⟨[⟨"90".toList, some "cpu".toList, ">".toList, false, false⟩], none⟩ (by decide)
    ⟨"90".toList, some "cpu".toList, ">".toList, false, false⟩ (by decide)

/-- C10: every pipeline segment whose first whitespace token is not
(case-insensitively) `BY`, `AS` or `LOOKUP` contributes a command whose name
is that first token and whose `args` list is the full token list — the
command name first, then the remaining tokens. -/
theorem claim10_command_args_include_name :
    ∀ (q part name : List Char) (rest : List (List Char)),
    part ∈ (splitOnP (fun c => c = '|') q).tail →
    pySplitWs (pyStrip part) = name :: rest →
    upperStr name ≠ "BY".toList →
    upperStr name ≠ "AS".toList →
    upperStr name ≠ "LOOKUP".toList →
    (⟨name, name :: rest⟩ : Cmd) ∈ ((parseSpl q).commands).getD [] :=
  fun q part name rest h1 h2 h3 h4 h5 =>
    parseSpl_plain_command_mem q part name rest h1 h2 h3 h4 h5

/-- Witness for C10: the segment `" table status count"` of the query
`"x | table status count"` yields the command
`{name := "table", args := ["table", "status", "count"]}`. -/
theorem claim10_witness :
    (⟨"table".toList, ["table".toList, "status".toList, "count".toList]⟩ : Cmd) ∈
      ((parseSpl "x | table status count".toList).commands).getD [] :=
  claim10_command_args_include_name "x | table status count".toList
    " table status count".toList "table".toList ["status".toList, "count".toList]
    (by decide) (by decide) (by decide) (by decide) (by decide)
